import Mathlib

/-!
# Verification of the `sql_to_csv` dump converter

A shallow embedding of `src/sql_to_csv.py` over `List Char`, together with
theorems settling the specification claims about its parsing pipeline
(statement assembly, CREATE TABLE schema extraction, INSERT value
tokenisation, value normalisation) and its table-sink state machine.
-/

namespace SqlToCsv

/-- Strings are modelled as lists of characters. -/
abbrev Str := List Char

/-- Python `str.strip` whitespace class: space, tab, newline, carriage
return, vertical tab, form feed. -/
def isPySpace (c : Char) : Bool :=
  c = ' ' || c = '\t' || c = '\n' || c = '\r' || c = Char.ofNat 11 || c = Char.ofNat 12

/-- Python regex `\w` on ASCII input: letters, digits, underscore. -/
def isWordChar (c : Char) : Bool :=
  c.isAlphanum || c = '_'

/-- Python `str.lstrip()`. -/
def pyStripL (s : Str) : Str := s.dropWhile isPySpace

/-- Python `str.rstrip()`. -/
def pyStripR (s : Str) : Str := (s.reverse.dropWhile isPySpace).reverse

/-- Python `str.strip()`. -/
def pyStrip (s : Str) : Str := pyStripR (pyStripL s)

/-- Python `str.rstrip(';')` (used on completed statement buffers). -/
def rstripSemi (s : Str) : Str := (s.reverse.dropWhile (fun c => c = ';')).reverse

/-- Python `str.upper()` on ASCII input. -/
def upperL (s : Str) : Str := s.map Char.toUpper

/-- Python `pat in s` (substring containment). -/
def hasSubstrB (pat : Str) : Str → Bool
  | [] => pat.isPrefixOf []
  | s@(_ :: t) => pat.isPrefixOf s || hasSubstrB pat t

/-- Locate the first occurrence of `pat` and return the suffix after it,
`none` when `pat` does not occur. -/
def afterFirstAux (pat : Str) : Str → Option Str
  | [] => if pat.isPrefixOf ([] : Str) then some [] else none
  | s@(_ :: t) => if pat.isPrefixOf s then some (s.drop pat.length) else afterFirstAux pat t

/-- Python `s.split(pat, 1)[-1]`: everything after the first occurrence of
`pat`, or `s` itself when `pat` is absent. -/
def afterFirst (pat s : Str) : Str := (afterFirstAux pat s).getD s

/-- Python `s.replace(a ++ b, r)` for a two-character pattern replaced by a
single character: left-to-right, non-overlapping, as `str.replace` does. -/
def replacePair (a b r : Char) : Str → Str
  | [] => []
  | [x] => [x]
  | x :: y :: rest =>
    if x = a ∧ y = b then r :: replacePair a b r rest
    else x :: replacePair a b r (y :: rest)

/-- The three MySQL escape substitutions of `_clean_value`, applied in the
source's order: `\\` → `\`, then `\'` → `'`, then `\"` → `"`. -/
def unescapeSeq (v : Str) : Str :=
  replacePair '\\' '"' '"' (replacePair '\\' '\'' '\'' (replacePair '\\' '\\' '\\' v))

/-- `_clean_value` from `sql_to_csv.py`: NULL (case-insensitive) becomes the
empty string; a leading/trailing matching quote pair is stripped
(`val[1:-1]`); then the escape substitutions run. -/
def _clean_value (val : Str) : Str :=
  if upperL val = "NULL".toList then []
  else if (val.head? = some '"' ∧ val.getLast? = some '"') ∨
          (val.head? = some '\'' ∧ val.getLast? = some '\'') then
    unescapeSeq ((val.drop 1).dropLast)
  else unescapeSeq val

/-! ## The value tokenizer (`parse_insert_values`)

The regex `\(((?:[^()]|\([^()]*\))*)\)` of the source is deterministic: the
inner alternation can never backtrack successfully (both alternatives fail on
the same characters), so it is modelled by a straight-line scanner. A fuel
argument bounds the recursion; one unit of fuel is consumed per loop
iteration and every iteration consumes at least one input character, so fuel
equal to the input length is always sufficient. -/

/-- The body `((?:[^()]|\([^()]*\))*)\)` of the tuple regex, matched greedily
at the head of the input with the already-matched content accumulated in
reverse in `acc`. Returns the captured content and the remaining input. -/
def groupStarAux : Nat → Str → Str → Option (Str × Str)
  | 0, _, _ => none
  | _ + 1, [], _ => none
  | fuel + 1, c :: rest, acc =>
    if c = ')' then some (acc.reverse, rest)
    else if c = '(' then
      let inner := rest.takeWhile (fun x => x ≠ '(' && x ≠ ')')
      match rest.drop inner.length with
      | ')' :: rest2 => groupStarAux fuel rest2 (')' :: (inner.reverse ++ '(' :: acc))
      | _ => none
    else groupStarAux fuel rest (c :: acc)

/-- Attempt the tuple regex `\((…)\)` at the head of `s`. -/
def tryGroup (s : Str) : Option (Str × Str) :=
  match s with
  | '(' :: rest => groupStarAux rest.length rest []
  | _ => none

/-- `re.findall` of the tuple regex: leftmost, non-overlapping matches. -/
def findGroupsAux : Nat → Str → List Str
  | 0, _ => []
  | _ + 1, [] => []
  | fuel + 1, c :: rest =>
    match tryGroup (c :: rest) with
    | some (content, rest2) => content :: findGroupsAux fuel rest2
    | none => findGroupsAux fuel rest

/-- All row-candidate contents of the values-region, in order. -/
def findGroups (s : Str) : List Str := findGroupsAux s.length s

/-- The mutable state of the character scan inside `parse_insert_values`. -/
structure ScanState where
  inQuotes : Bool
  quoteChar : Option Char
  parenLevel : Int
  current : Str
  row : List Str
deriving DecidableEq

/-- One iteration of the `for char in value_str + ','` loop of the source:
quote toggling, paren tracking, and top-level comma flushing. -/
def scanStep (st : ScanState) (c : Char) : ScanState :=
  if c = '"' ∨ c = '\'' then
    if st.inQuotes = false then
      { st with inQuotes := true, quoteChar := some c, current := st.current ++ [c] }
    else if st.quoteChar = some c then
      { st with inQuotes := false, quoteChar := none, current := st.current ++ [c] }
    else { st with current := st.current ++ [c] }
  else if c = '(' ∧ st.inQuotes = false then
    { st with parenLevel := st.parenLevel + 1, current := st.current ++ [c] }
  else if c = ')' ∧ st.inQuotes = false then
    { st with parenLevel := st.parenLevel - 1, current := st.current ++ [c] }
  else if c = ',' ∧ st.inQuotes = false ∧ st.parenLevel = 0 then
    { st with row := st.row ++ [pyStrip st.current], current := [] }
  else { st with current := st.current ++ [c] }

/-- The raw comma-separated tokens of one row-candidate: the scan runs over
the candidate with a trailing comma appended to flush the final field. -/
def scanTokens (g : Str) : List Str :=
  (List.foldl scanStep ⟨false, none, 0, [], []⟩ (g ++ [','])).row

/-- The per-candidate clean-up of the source: keep tokens that are non-empty
after stripping, and normalize each kept token. -/
def processGroup (g : Str) : List Str :=
  ((scanTokens g).filter (fun v => !(pyStrip v).isEmpty)).map
    (fun v => _clean_value (pyStrip v))

def litVALUES : Str := "VALUES".toList
def litvalues : Str := "values".toList
def litvalue : Str := "value".toList

/-- Line 21 of the source: `line.split('VALUES', 1)[-1].split('value', 1)[-1].strip()`. -/
def valuesRegion (line : Str) : Str :=
  pyStrip (afterFirst litvalue (afterFirst litVALUES line))

/-- `parse_insert_values` from `sql_to_csv.py`. -/
def parse_insert_values (line : Str) : List (List Str) :=
  if !(hasSubstrB litVALUES line || hasSubstrB litvalues line) then []
  else
    let groups := findGroups (valuesRegion line)
    if groups.isEmpty then []
    else
      groups.foldl
        (fun rows g =>
          let row := processGroup g
          if row.isEmpty then rows else rows ++ [row])
        []

/-! ## The schema extractor (`parse_create_table`, `get_column_names`) -/

def ctLit : Str := "CREATE TABLE".toList

/-- The part `\s+[`"]?(\w+)` of the table-name regex, matched right after the
literal `CREATE TABLE`; returns the captured word. -/
def createTableTail (s : Str) : Option Str :=
  let sp := s.takeWhile isPySpace
  if sp.isEmpty then none
  else
    let s1 := s.drop sp.length
    let s2 :=
      match s1 with
      | c :: t => if c = '`' ∨ c = '"' then t else s1
      | [] => s1
    let w := s2.takeWhile isWordChar
    if w.isEmpty then none else some w

/-- `re.search(r'CREATE TABLE\s+[`"]?(\w+)[`"]?', line, re.IGNORECASE)`:
try the pattern at each position, leftmost match wins. -/
def searchCreate : Str → Option Str
  | [] => none
  | c :: t =>
    match (if upperL (List.take 12 (c :: t)) = ctLit
           then createTableTail (List.drop 12 (c :: t)) else none) with
    | some w => some w
    | none => searchCreate t

/-- `parse_create_table` from `sql_to_csv.py`. -/
def parse_create_table (line : Str) : Option Str := searchCreate line

/-- `re.search(r'\((.*)\)', line, re.DOTALL)`: the greedy `.*` spans from the
first `(` to the last `)` of the whole statement. -/
def parenSpan (s : Str) : Option Str :=
  match afterFirstAux ['('] s with
  | none => none
  | some rest =>
    match afterFirstAux [')'] rest.reverse with
    | none => none
    | some rrev => some rrev.reverse

/-- The constraint keywords skipped by `get_column_names`. -/
def keywordList : List Str :=
  ["CONSTRAINT".toList, "PRIMARY KEY".toList, "FOREIGN KEY".toList,
   "KEY".toList, "INDEX".toList, "UNIQUE".toList]

/-- The column-name regex `^[`"]?(\w+)[`"]?\s+\w+` of line 100, anchored at
the start of a (stripped) column fragment. -/
def colMatch (f : Str) : Option Str :=
  let s1 :=
    match f with
    | c :: t => if c = '`' ∨ c = '"' then t else f
    | [] => f
  let w := s1.takeWhile isWordChar
  if w.isEmpty then none
  else
    let s2 := s1.drop w.length
    let s3 :=
      match s2 with
      | c :: t => if c = '`' ∨ c = '"' then t else s2
      | [] => s2
    let sp := s3.takeWhile isPySpace
    if sp.isEmpty then none
    else
      match s3.drop sp.length with
      | c :: _ => if isWordChar c then some w else none
      | [] => none

/-- `get_column_names` from `sql_to_csv.py`. -/
def get_column_names (line : Str) : List Str :=
  match parenSpan line with
  | none => []
  | some content =>
    (content.splitOn ',').foldl
      (fun cols frag =>
        let cd := pyStrip frag
        if keywordList.any (fun k => hasSubstrB k (upperL cd)) then cols
        else
          match colMatch (pyStrip cd) with
          | some w => cols ++ [w]
          | none => cols)
      []

/-! ## The table sink router (`convert_sql_to_csv`)

File handles are modelled as `Sink` records held in a list; `writerRef` is
the index the Python variables `csv_file`/`csv_writer` are bound to (they are
always rebound together and are never reset to `None`, so a single index
models both). Writing rows through a writer whose file has been closed
raises `ValueError` in Python; this is the `error` flag, and — as in Python,
where the exception propagates out of `convert_sql_to_csv` — once `error` is
set processing stops and the final `csv_file.close()` is not reached. -/

structure Sink where
  name : Str
  header : List Str
  rows : List (List Str)
  isOpen : Bool
deriving DecidableEq

structure ConvState where
  currentTable : Option Str
  columns : List Str
  writerRef : Option Nat
  sinks : List Sink
  buffer : Str
  error : Bool
deriving DecidableEq

def initState : ConvState := ⟨none, [], none, [], [], false⟩

/-- Replace the `isOpen` flag of the sink at index `i`. -/
def setOpen (b : Bool) : List Sink → Nat → List Sink
  | [], _ => []
  | k :: rest, 0 => { k with isOpen := b } :: rest
  | k :: rest, n + 1 => k :: setOpen b rest n

/-- Append rows to the sink at index `i`. -/
def addRows (rows : List (List Str)) : List Sink → Nat → List Sink
  | [], _ => []
  | k :: rest, 0 => { k with rows := k.rows ++ rows } :: rest
  | k :: rest, n + 1 => k :: addRows rows rest n

/-- `if csv_file: csv_file.close()` — closing an already-closed file is a
no-op in Python, so this just clears the flag. -/
def closeSink (s : ConvState) : ConvState :=
  match s.writerRef with
  | some i => { s with sinks := setOpen false s.sinks i }
  | none => s

def isCreateStmt (stmt : Str) : Bool := ctLit.isPrefixOf (upperL stmt)

def isInsertStmt (stmt : Str) : Bool :=
  ("INSERT INTO".toList).isPrefixOf (upperL stmt) ||
  ("REPLACE INTO".toList).isPrefixOf (upperL stmt)

/-- The CREATE TABLE branch (lines 137–149): close the current file, parse
name and columns, and open a fresh sink with a header row only when both
were recovered. `current_table` and `columns` are reassigned in either case;
`csv_writer`/`csv_file` keep their old (now closed) binding on failure. -/
def createStep (s : ConvState) (stmt : Str) : ConvState :=
  if (parse_create_table stmt).isSome && !(get_column_names stmt).isEmpty then
    ⟨parse_create_table stmt, get_column_names stmt,
     some (closeSink s).sinks.length,
     (closeSink s).sinks ++
       [⟨(parse_create_table stmt).getD [], get_column_names stmt, [], true⟩],
     (closeSink s).buffer, (closeSink s).error⟩
  else
    ⟨parse_create_table stmt, get_column_names stmt, (closeSink s).writerRef,
     (closeSink s).sinks, (closeSink s).buffer, (closeSink s).error⟩

/-- `csv_writer.writerows(rows)`: appends the rows to the bound sink; on a
closed file it raises as soon as it writes a row, so it is a no-op for zero
rows and an error otherwise. -/
def writeRows (s : ConvState) (rows : List (List Str)) (r : Nat) : ConvState :=
  match s.sinks[r]? with
  | some k =>
    if k.isOpen then { s with sinks := addRows rows s.sinks r }
    else if rows.isEmpty then s
    else { s with error := true }
  | none => s

/-- The INSERT/REPLACE branch (lines 151–155). -/
def insertStep (s : ConvState) (stmt : Str) : ConvState :=
  match s.writerRef with
  | some r => writeRows s (parse_insert_values stmt) r
  | none => s

/-- Dispatch of one completed statement (lines 137–155 of the source). -/
def processStatement (s : ConvState) (stmt : Str) : ConvState :=
  if isCreateStmt stmt then createStep s stmt
  else if isInsertStmt stmt && s.currentTable.isSome && s.writerRef.isSome then
    insertStep s stmt
  else s

/-- Python `s.endswith(';')`. -/
def endsWithSemi (s : Str) : Bool :=
  match s.reverse with
  | ';' :: _ => true
  | _ => false

/-- One iteration of the `for line in sql_file` loop: strip, skip comments
and `SET` directives, buffer, and process a completed `;`-statement. Once an
exception has been raised (`error`) the run is over and the state freezes. -/
def processLine (s : ConvState) (rawLine : Str) : ConvState :=
  if s.error then s
  else
    let line := pyStrip rawLine
    if line.isEmpty || ("--".toList).isPrefixOf line ||
       ("/*".toList).isPrefixOf line || ("SET ".toList).isPrefixOf line then s
    else
      let buf := s.buffer ++ ' ' :: line
      if endsWithSemi (pyStrip buf) then
        processStatement { s with buffer := [] } (rstripSemi (pyStrip buf))
      else { s with buffer := buf }

/-- The state after the main loop of `convert_sql_to_csv`. -/
def runLines (lines : List Str) : ConvState := lines.foldl processLine initState

/-- `convert_sql_to_csv`: the main loop followed by the final
`if csv_file: csv_file.close()` (not reached when an exception escaped). -/
def convertLines (lines : List Str) : ConvState :=
  let s := runLines lines
  if s.error then s else closeSink s

/-- The output file name for a sink (`f'{output_dir}/{current_table}.csv'`,
with the directory part omitted). -/
def sinkFileName (k : Sink) : Str := k.name ++ ".csv".toList

/-- Minimal quoting of Python's `csv.writer`: a field is quoted iff it
contains the delimiter, the quote character, or a line-break character. -/
def csvField (f : Str) : Str :=
  if f.any (fun c => c = ',' || c = '"' || c = '\n' || c = '\r') then
    '"' :: (f.foldr (fun c acc => if c = '"' then '"' :: '"' :: acc else c :: acc) ['"'])
  else f

/-- Comma-join of a list of strings (used for one CSV record). -/
def joinComma : List Str → Str
  | [] => []
  | [x] => x
  | x :: y :: rest => x ++ ',' :: joinComma (y :: rest)

/-- One emitted CSV record. -/
def csvRow (r : List Str) : Str := joinComma (r.map csvField)

/-- The full emitted content of a sink: header record then data records. -/
def sinkLines (k : Sink) : List Str := csvRow k.header :: k.rows.map csvRow

/-! ## Definitions used only to state claims -/

/-- The values-region as the specification §4.3 step 1 words it: everything
after the first `VALUES`, with a split on the first `value` only as a
fallback when `VALUES` is absent. Stated from the spec's words as the
comparison point for the claim about the actual split chain. -/
def valuesRegionSpec (line : Str) : Str :=
  if hasSubstrB litVALUES line then pyStrip (afterFirst litVALUES line)
  else pyStrip (afterFirst litvalue line)

/-- A character usable in an unquoted scalar literal of a well-formed
`INSERT` tuple: no separator, paren, quote, or whitespace. -/
def isBareChar (c : Char) : Bool :=
  c ≠ ',' && c ≠ '(' && c ≠ ')' && c ≠ '\'' && c ≠ '"' && !isPySpace c

/-- A character usable inside a quoted scalar literal: anything except
quotes (the scanner has no escape handling) and parens (the tuple regex has
no quote handling). -/
def isInnerChar (c : Char) : Bool :=
  c ≠ '\'' && c ≠ '"' && c ≠ '(' && c ≠ ')'

/-- One scalar field of a well-formed `INSERT` tuple: an unquoted literal or
a quoted one. -/
inductive SqlField where
  | bare (cs : Str)
  | quoted (q : Char) (inner : Str)
deriving DecidableEq

def renderField : SqlField → Str
  | .bare cs => cs
  | .quoted q inner => q :: inner ++ [q]

def goodField : SqlField → Bool
  | .bare cs => !cs.isEmpty && cs.all isBareChar
  | .quoted q inner => (q = '\'' || q = '"') && inner.all isInnerChar

/-- The text inside one parenthesized tuple. -/
def tupleContent (fs : List SqlField) : Str := joinComma (fs.map renderField)

/-- One parenthesized tuple. -/
def renderTuple (fs : List SqlField) : Str := '(' :: tupleContent fs ++ [')']

/-- The comma-separated tuple list after `VALUES`. -/
def renderTuples (ts : List (List SqlField)) : Str := joinComma (ts.map renderTuple)

/-- A well-formed `INSERT INTO t VALUES (...), (...)` statement. -/
def mkInsert (t : Str) (ts : List (List SqlField)) : Str :=
  "INSERT INTO ".toList ++ t ++ " VALUES ".toList ++ renderTuples ts

/-- Well-formedness of the tuple list: every tuple has at least one field
and every field is a plain scalar literal. -/
def goodTuples (ts : List (List SqlField)) : Bool :=
  ts.all (fun fs => !fs.isEmpty && fs.all goodField)

/-- The resource invariant of the router: only the sink the writer is bound
to can be open, and nothing is open once the run has died. -/
def InvP (s : ConvState) : Prop :=
  ∀ i k, s.sinks[i]? = some k → k.isOpen = true → s.writerRef = some i ∧ s.error = false

/-- The §8 scenario input: one CREATE TABLE, one two-tuple INSERT. -/
def demoLines : List Str :=
  ["CREATE TABLE t (id INT, name VARCHAR(10));".toList,
   "INSERT INTO t VALUES (1,'Alice'),(2,'Bob');".toList]

/-- A dump whose second CREATE TABLE recovers a name but no usable columns,
while a sink from the first table is already open. -/
def bugLines : List Str :=
  ["CREATE TABLE a (x INT);".toList,
   "CREATE TABLE b (PRIMARY KEY (x));".toList,
   "INSERT INTO b VALUES (1);".toList]

/-! ## Lemmas about the value normalizer -/

theorem replacePair_of_not_mem (a b r : Char) :
    ∀ v : Str, a ∉ v → replacePair a b r v = v
  | [], _ => rfl
  | [x], _ => rfl
  | x :: y :: rest, h => by
    have hx : x ≠ a := fun hc => h (hc ▸ List.mem_cons_self x _)
    have hrest : a ∉ y :: rest := fun hc => h (List.mem_cons_of_mem _ hc)
    simp only [replacePair, if_neg (fun hc : x = a ∧ y = b => hx hc.1)]
    rw [replacePair_of_not_mem a b r (y :: rest) hrest]

theorem unescapeSeq_of_no_backslash (v : Str) (h : '\\' ∉ v) : unescapeSeq v = v := by
  unfold unescapeSeq
  rw [replacePair_of_not_mem _ _ _ v h, replacePair_of_not_mem _ _ _ v h,
    replacePair_of_not_mem _ _ _ v h]

theorem isPrefixOf_self_append (p l : Str) : p.isPrefixOf (p ++ l) = true := by
  induction p with
  | nil => exact List.isPrefixOf_nil_left
  | cons a t ih =>
    show (a == a && t.isPrefixOf (t ++ l)) = true
    simp [ih]

theorem isPrefixOf_cons_elim {a b : Char} {p l : Str}
    (h : (a :: p).isPrefixOf (b :: l) = true) : a = b ∧ p.isPrefixOf l = true := by
  have h2 : (a == b && p.isPrefixOf l) = true := h
  simp only [Bool.and_eq_true, beq_iff_eq] at h2
  exact h2

theorem isPrefixOf_cons_nil {a : Char} {p : Str}
    (h : (a :: p).isPrefixOf ([] : Str) = true) : False := by
  have h2 : false = true := h
  cases h2

theorem eq_append_of_isPrefixOf : ∀ (p l : Str), p.isPrefixOf l = true →
    l = p ++ l.drop p.length
  | [], l, _ => by simp
  | a :: p, [], h => absurd h (fun h => isPrefixOf_cons_nil h)
  | a :: p, b :: l, h => by
    obtain ⟨h1, h2⟩ := isPrefixOf_cons_elim h
    subst h1
    rw [show (a :: p).length = p.length + 1 from rfl, List.drop_succ_cons,
      List.cons_append, ← eq_append_of_isPrefixOf p l h2]

theorem getElem?_of_isPrefixOf {p l : Str} (h : p.isPrefixOf l = true) :
    ∀ k, k < p.length → l[k]? = p[k]? := by
  intro k hk
  rw [eq_append_of_isPrefixOf p l h]
  exact List.getElem?_append_left hk

theorem hasSubstrB_of_isPrefixOf : ∀ (s : Str), pat.isPrefixOf s = true →
    hasSubstrB pat s = true
  | [], h => h
  | c :: t, h => by simp [hasSubstrB, h]

theorem hasSubstrB_of_isPrefixOf_drop (pat : Str) :
    ∀ (s : Str) (n : Nat), pat.isPrefixOf (s.drop n) = true → hasSubstrB pat s = true
  | s, 0, h => hasSubstrB_of_isPrefixOf s (by rwa [List.drop_zero] at h)
  | [], _ + 1, h => by
    rw [List.drop_nil] at h
    exact hasSubstrB_of_isPrefixOf [] h
  | c :: t, n + 1, h => by
    rw [List.drop_succ_cons] at h
    simp [hasSubstrB, hasSubstrB_of_isPrefixOf_drop pat t n h]

theorem hasSubstrB_middle (pat suf : Str) : ∀ (pre : Str),
    hasSubstrB pat (pre ++ pat ++ suf) = true
  | [] => by
    have h := isPrefixOf_self_append pat suf
    cases hps : pat ++ suf with
    | nil => simpa [hasSubstrB, hps] using h
    | cons c t => simp only [List.nil_append, hps, hasSubstrB, hps ▸ h, Bool.true_or]
  | c :: pre => by
    show (pat.isPrefixOf ((c :: pre) ++ pat ++ suf) || hasSubstrB pat (pre ++ pat ++ suf)) = true
    rw [hasSubstrB_middle pat suf pre, Bool.or_true]

theorem isPrefixOf_append_of_le : ∀ (p x b : Str),
    p.isPrefixOf (x ++ b) = true → p.length ≤ x.length → p.isPrefixOf x = true
  | [], x, b, _, _ => List.isPrefixOf_nil_left
  | a :: p, [], b, h, hl => absurd hl (by simp)
  | a :: p, c :: x, b, h, hl => by
    obtain ⟨rfl, h2⟩ := isPrefixOf_cons_elim h
    show (a == a && p.isPrefixOf x) = true
    simp only [List.length_cons, Nat.add_le_add_iff_right] at hl
    simp [isPrefixOf_append_of_le p x b h2 hl]

theorem afterFirstAux_of_not_hasSubstr (pat : Str) :
    ∀ s : Str, hasSubstrB pat s = false → afterFirstAux pat s = none
  | [], h => by
    simp only [hasSubstrB] at h
    simp [afterFirstAux, h]
  | c :: t, h => by
    simp only [hasSubstrB, Bool.or_eq_false_iff] at h
    simp only [afterFirstAux, h.1, if_false, Bool.false_eq_true]
    exact afterFirstAux_of_not_hasSubstr pat t h.2

theorem afterFirst_of_not_hasSubstr (pat s : Str) (h : hasSubstrB pat s = false) :
    afterFirst pat s = s := by
  unfold afterFirst
  rw [afterFirstAux_of_not_hasSubstr pat s h]
  rfl

theorem afterFirstAux_append (pat suf : Str) (hp : pat ≠ []) :
    ∀ pre : Str,
      (∀ n, n < pre.length → pat.isPrefixOf ((pre ++ pat ++ suf).drop n) = false) →
      afterFirstAux pat (pre ++ pat ++ suf) = some suf
  | [], _ => by
    rw [List.nil_append]
    cases hpat : pat with
    | nil => exact absurd hpat hp
    | cons a p =>
      subst hpat
      show (if (a :: p).isPrefixOf (a :: (p ++ suf)) then
          some ((a :: (p ++ suf)).drop (a :: p).length)
        else afterFirstAux (a :: p) (p ++ suf)) = some suf
      rw [if_pos (show (a :: p).isPrefixOf (a :: (p ++ suf)) = true from
        isPrefixOf_self_append (a :: p) suf)]
      simp [List.drop_left]
  | c :: pre, h => by
    show (if pat.isPrefixOf (c :: (pre ++ pat ++ suf)) then
        some ((c :: (pre ++ pat ++ suf)).drop pat.length)
      else afterFirstAux pat (pre ++ pat ++ suf)) = some suf
    have h0 := h 0 (by simp)
    rw [List.drop_zero] at h0
    rw [show (c :: pre) ++ pat ++ suf = c :: (pre ++ pat ++ suf) from rfl] at h0
    rw [if_neg (by rw [h0]; exact Bool.false_ne_true)]
    exact afterFirstAux_append pat suf hp pre
      (fun n hn => by
        have hstep := h (n + 1) (by simpa using Nat.succ_lt_succ hn)
        rwa [show (c :: pre) ++ pat ++ suf = c :: (pre ++ pat ++ suf) from rfl,
          List.drop_succ_cons] at hstep)

/-- No occurrence of `VALUES` starts strictly before the literal one in a
well-formed `INSERT` statement: an occurrence inside the head would
contradict the hypothesis, and an occurrence crossing into the literal would
have to cover the space just before it, which `VALUES` does not contain. -/
theorem no_early_VALUES (t suf : Str)
    (hT : hasSubstrB litVALUES ("INSERT INTO ".toList ++ t ++ [' ']) = false) :
    ∀ n, n < ("INSERT INTO ".toList ++ t ++ [' ']).length →
      litVALUES.isPrefixOf
        ((("INSERT INTO ".toList ++ t ++ [' ']) ++ litVALUES ++ suf).drop n) = false := by
  intro n hn
  cases hpre : litVALUES.isPrefixOf
      ((("INSERT INTO ".toList ++ t ++ [' ']) ++ litVALUES ++ suf).drop n) with
  | false => rfl
  | true =>
    exfalso
    have hlen : litVALUES.length = 6 := rfl
    by_cases hcase : n + 6 ≤ ("INSERT INTO ".toList ++ t ++ [' ']).length
    · -- the occurrence fits inside the head, contradicting hT
      rw [List.append_assoc, List.drop_append_of_le_length (Nat.le_of_lt hn)] at hpre
      have hfit : litVALUES.length ≤ (("INSERT INTO ".toList ++ t ++ [' ']).drop n).length := by
        rw [List.length_drop, hlen]
        omega
      have h2 := isPrefixOf_append_of_le _ _ _ hpre hfit
      exact absurd (hasSubstrB_of_isPrefixOf_drop litVALUES _ n h2) (by rw [hT]; simp)
    · -- the occurrence would cover the trailing space of the head
      set pre := "INSERT INTO ".toList ++ t ++ [' '] with hpredef
      have hk6 : pre.length - 1 - n < 6 := by omega
      have hnk : n + (pre.length - 1 - n) = pre.length - 1 := by omega
      have hidx := getElem?_of_isPrefixOf hpre (pre.length - 1 - n) (by rw [hlen]; omega)
      rw [List.getElem?_drop, hnk] at hidx
      have hpre1 : 0 < pre.length := by
        rw [hpredef]
        simp
      have hlast : (pre ++ litVALUES ++ suf)[pre.length - 1]? = some ' ' := by
        rw [List.append_assoc, List.getElem?_append_left (by omega)]
        rw [← List.getLast?_eq_getElem?]
        rw [hpredef]
        exact List.getLast?_concat _
      rw [hlast] at hidx
      have : ∀ k, k < 6 → litVALUES[k]? ≠ some ' ' := by decide
      exact this _ hk6 hidx.symm

theorem mkInsert_decomp (t : Str) (ts : List (List SqlField)) :
    mkInsert t ts =
      ("INSERT INTO ".toList ++ t ++ [' ']) ++ litVALUES ++ (' ' :: renderTuples ts) := by
  unfold mkInsert
  rw [show " VALUES ".toList = [' '] ++ litVALUES ++ [' '] from rfl]
  simp [List.append_assoc]

theorem afterFirst_mkInsert (t : Str) (ts : List (List SqlField))
    (hT : hasSubstrB litVALUES ("INSERT INTO ".toList ++ t ++ [' ']) = false) :
    afterFirst litVALUES (mkInsert t ts) = ' ' :: renderTuples ts := by
  rw [mkInsert_decomp]
  unfold afterFirst
  rw [afterFirstAux_append litVALUES (' ' :: renderTuples ts) (by decide) _
    (no_early_VALUES t _ hT)]
  rfl

theorem hasSubstr_value_space (body : Str) (hv : hasSubstrB litvalue body = false) :
    hasSubstrB litvalue (' ' :: body) = false := by
  show (litvalue.isPrefixOf (' ' :: body) || hasSubstrB litvalue body) = false
  rw [hv, Bool.or_false]
  show (('v' == ' ') && ("alue".toList).isPrefixOf body) = false
  rw [show ('v' == ' ') = false from rfl, Bool.false_and]

theorem pyStripR_concat (l : Str) (c : Char) (hc : isPySpace c = false) :
    pyStripR (l ++ [c]) = l ++ [c] := by
  unfold pyStripR
  rw [List.reverse_append]
  simp [List.dropWhile_cons, hc]

theorem renderTuples_shape : ∀ ts : List (List SqlField), ts ≠ [] →
    ∃ mid, renderTuples ts = '(' :: mid ++ [')']
  | [], h => absurd rfl h
  | [fs], _ => ⟨tupleContent fs, rfl⟩
  | fs :: fs2 :: rest, _ => by
    obtain ⟨mid, hmid⟩ := renderTuples_shape (fs2 :: rest) (by simp)
    refine ⟨tupleContent fs ++ [')'] ++ ',' :: '(' :: mid, ?_⟩
    show renderTuple fs ++ ',' :: renderTuples (fs2 :: rest) = _
    rw [hmid]
    simp [renderTuple, List.append_assoc]

theorem pyStrip_space_parens (mid : Str) :
    pyStrip (' ' :: '(' :: mid ++ [')']) = '(' :: mid ++ [')'] := by
  rw [show (' ' :: '(' :: mid ++ [')'] : Str) = ' ' :: ('(' :: (mid ++ [')'])) from by simp]
  unfold pyStrip pyStripL
  rw [List.dropWhile_cons, if_pos (show isPySpace ' ' = true from rfl),
    List.dropWhile_cons, if_neg (show ¬isPySpace '(' = true from by decide)]
  rw [show ('(' :: (mid ++ [')']) : Str) = ('(' :: mid) ++ [')'] from by simp]
  exact pyStripR_concat _ _ (by decide)

theorem mem_joinComma {c : Char} : ∀ (l : List Str), c ∈ joinComma l →
    c = ',' ∨ ∃ x ∈ l, c ∈ x
  | [], h => absurd h (List.not_mem_nil c)
  | [x], h => Or.inr ⟨x, List.mem_cons_self x [], h⟩
  | x :: y :: rest, h => by
    rw [show joinComma (x :: y :: rest) = x ++ ',' :: joinComma (y :: rest) from rfl] at h
    rcases List.mem_append.mp h with h1 | h2
    · exact Or.inr ⟨x, List.mem_cons_self x _, h1⟩
    · rcases List.mem_cons.mp h2 with h3 | h4
      · exact Or.inl h3
      · rcases mem_joinComma (y :: rest) h4 with h5 | ⟨z, hz, hcz⟩
        · exact Or.inl h5
        · exact Or.inr ⟨z, List.mem_cons_of_mem x hz, hcz⟩

theorem renderField_no_paren (f : SqlField) (hf : goodField f = true) :
    ∀ c ∈ renderField f, c ≠ '(' ∧ c ≠ ')' := by
  intro c hc
  cases f with
  | bare cs =>
    simp only [goodField, Bool.and_eq_true, List.all_eq_true] at hf
    have := hf.2 c hc
    simp only [isBareChar, Bool.and_eq_true, decide_eq_true_eq] at this
    exact ⟨this.1.1.1.1.2, this.1.1.1.2⟩
  | quoted q inner =>
    simp only [goodField, Bool.and_eq_true, Bool.or_eq_true, decide_eq_true_eq,
      List.all_eq_true] at hf
    have hcq : c = q ∨ c ∈ inner := by
      simp only [renderField] at hc
      rcases List.mem_append.mp hc with h | h
      · rcases List.mem_cons.mp h with h2 | h2
        · exact Or.inl h2
        · exact Or.inr h2
      · exact Or.inl (List.mem_singleton.mp h)
    rcases hcq with rfl | hin
    · rcases hf.1 with rfl | rfl <;> exact ⟨by decide, by decide⟩
    · have h2 := hf.2 c hin
      simp only [isInnerChar, Bool.and_eq_true, decide_eq_true_eq] at h2
      exact ⟨fun hc2 => absurd hc2 (by tauto), fun hc2 => absurd hc2 (by tauto)⟩

theorem tupleContent_no_paren (fs : List SqlField) (h : fs.all goodField = true) :
    ∀ c ∈ tupleContent fs, c ≠ '(' ∧ c ≠ ')' := by
  intro c hc
  rcases mem_joinComma _ hc with rfl | ⟨x, hx, hcx⟩
  · exact ⟨by decide, by decide⟩
  · rcases List.mem_map.mp hx with ⟨f, hf, rfl⟩
    exact renderField_no_paren f (List.all_eq_true.mp h f hf) c hcx

theorem groupStarAux_rparen (f : Nat) (rest acc : Str) :
    groupStarAux (f + 1) (')' :: rest) acc = some (acc.reverse, rest) := rfl

theorem groupStarAux_other (f : Nat) (c : Char) (rest acc : Str)
    (h1 : c ≠ ')') (h2 : c ≠ '(') :
    groupStarAux (f + 1) (c :: rest) acc = groupStarAux f rest (c :: acc) := by
  simp only [groupStarAux]
  rw [if_neg h1, if_neg h2]

theorem groupStarAux_flat :
    ∀ (content : Str) (f : Nat) (rest acc : Str), content.length < f →
      (∀ c ∈ content, c ≠ '(' ∧ c ≠ ')') →
      groupStarAux f (content ++ ')' :: rest) acc = some (acc.reverse ++ content, rest)
  | [], f, rest, acc, hf, _ => by
    obtain ⟨f', rfl⟩ : ∃ f', f = f' + 1 := ⟨f - 1, by omega⟩
    rw [List.nil_append, groupStarAux_rparen]
    simp
  | c :: cs, f, rest, acc, hf, hc => by
    obtain ⟨f', rfl⟩ : ∃ f', f = f' + 1 := ⟨f - 1, by omega⟩
    obtain ⟨hc1, hc2⟩ := hc c (List.mem_cons_self c cs)
    rw [show ((c :: cs) ++ ')' :: rest : Str) = c :: (cs ++ ')' :: rest) from rfl,
      groupStarAux_other f' c _ _ hc2 hc1]
    rw [groupStarAux_flat cs f' rest (c :: acc) (by simp at hf ⊢; omega)
      (fun x hx => hc x (List.mem_cons_of_mem c hx))]
    simp [List.reverse_cons, List.append_assoc]

theorem tryGroup_tuple (content rest : Str) (hnp : ∀ c ∈ content, c ≠ '(' ∧ c ≠ ')') :
    tryGroup ('(' :: (content ++ ')' :: rest)) = some (content, rest) := by
  show groupStarAux (content ++ ')' :: rest).length (content ++ ')' :: rest) [] =
    some (content, rest)
  rw [groupStarAux_flat content _ rest [] (by simp) hnp]
  simp

theorem findGroupsAux_nil : ∀ f, findGroupsAux f [] = []
  | 0 => rfl
  | _ + 1 => rfl

theorem findGroupsAux_comma (f : Nat) (rest : Str) :
    findGroupsAux (f + 1) (',' :: rest) = findGroupsAux f rest := rfl

theorem findGroupsAux_tuples : ∀ (ts : List (List SqlField)) (f : Nat),
    goodTuples ts = true → (renderTuples ts).length ≤ f →
    findGroupsAux f (renderTuples ts) = ts.map tupleContent
  | [], f, _, _ => by
    rw [show renderTuples [] = [] from rfl, findGroupsAux_nil]
    rfl
  | fs :: rest, f, hg, hf => by
    have hgfs := List.all_eq_true.mp hg fs (List.mem_cons_self _ _)
    simp only [Bool.and_eq_true] at hgfs
    have hgrest : goodTuples rest = true := by
      simp only [goodTuples, List.all_eq_true] at hg ⊢
      exact fun x hx => hg x (List.mem_cons_of_mem _ hx)
    cases rest with
    | nil =>
      have hshape : renderTuples [fs] = '(' :: (tupleContent fs ++ ')' :: ([] : Str)) := by
        show renderTuple fs = _
        simp [renderTuple]
      rw [hshape] at hf ⊢
      obtain ⟨f', rfl⟩ : ∃ f', f = f' + 1 := ⟨f - 1, by simp at hf; omega⟩
      show (match tryGroup ('(' :: (tupleContent fs ++ ')' :: ([] : Str))) with
        | some (content, rest2) => content :: findGroupsAux f' rest2
        | none => findGroupsAux f' (tupleContent fs ++ ')' :: ([] : Str))) = [fs].map tupleContent
      rw [tryGroup_tuple _ _ (tupleContent_no_paren fs hgfs.2)]
      show tupleContent fs :: findGroupsAux f' [] = [fs].map tupleContent
      rw [findGroupsAux_nil]
      rfl
    | cons fs2 rest2 =>
      have hshape : renderTuples (fs :: fs2 :: rest2)
          = '(' :: (tupleContent fs ++ ')' :: (',' :: renderTuples (fs2 :: rest2))) := by
        show renderTuple fs ++ ',' :: renderTuples (fs2 :: rest2) = _
        simp [renderTuple]
      rw [hshape] at hf ⊢
      obtain ⟨f', rfl⟩ : ∃ f', f = f' + 1 := ⟨f - 1, by simp at hf; omega⟩
      show (match tryGroup ('(' :: (tupleContent fs ++ ')' ::
            (',' :: renderTuples (fs2 :: rest2)))) with
        | some (content, r2) => content :: findGroupsAux f' r2
        | none => findGroupsAux f'
            (tupleContent fs ++ ')' :: (',' :: renderTuples (fs2 :: rest2))))
        = (fs :: fs2 :: rest2).map tupleContent
      rw [tryGroup_tuple _ _ (tupleContent_no_paren fs hgfs.2)]
      obtain ⟨f'', rfl⟩ : ∃ f'', f' = f'' + 1 := ⟨f' - 1, by simp at hf; omega⟩
      show tupleContent fs :: findGroupsAux (f'' + 1) (',' :: renderTuples (fs2 :: rest2))
        = (fs :: fs2 :: rest2).map tupleContent
      rw [findGroupsAux_comma]
      rw [findGroupsAux_tuples (fs2 :: rest2) f'' hgrest (by simp at hf ⊢; omega)]
      rfl

theorem findGroups_renderTuples (ts : List (List SqlField)) (hg : goodTuples ts = true) :
    findGroups (renderTuples ts) = ts.map tupleContent :=
  findGroupsAux_tuples ts _ hg (Nat.le_refl _)

theorem scanStep_append (st : ScanState) (c : Char)
    (h1 : ¬(c = '"' ∨ c = '\'')) (h2 : c ≠ '(') (h3 : c ≠ ')') (h4 : c ≠ ',') :
    scanStep st c = { st with current := st.current ++ [c] } := by
  unfold scanStep
  rw [if_neg h1, if_neg (fun h => h2 h.1), if_neg (fun h => h3 h.1), if_neg (fun h => h4 h.1)]

theorem scanStep_inquotes_append (st : ScanState) (c : Char)
    (hin : st.inQuotes = true) (hq : ¬(c = '"' ∨ c = '\'')) :
    scanStep st c = { st with current := st.current ++ [c] } := by
  unfold scanStep
  rw [if_neg hq, if_neg (fun h => by simp [hin] at h), if_neg (fun h => by simp [hin] at h),
    if_neg (fun h => by simp [hin] at h)]

theorem scanStep_open (cur : Str) (row : List Str) (q : Char) (hq : q = '\'' ∨ q = '"') :
    scanStep ⟨false, none, 0, cur, row⟩ q = ⟨true, some q, 0, cur ++ [q], row⟩ := by
  unfold scanStep
  rw [if_pos hq.symm, if_pos rfl]

theorem scanStep_close (cur : Str) (row : List Str) (q : Char) (hq : q = '\'' ∨ q = '"') :
    scanStep ⟨true, some q, 0, cur, row⟩ q = ⟨false, none, 0, cur ++ [q], row⟩ := by
  unfold scanStep
  rw [if_pos hq.symm, if_neg (by simp), if_pos rfl]

theorem scanStep_flush (cur : Str) (row : List Str) :
    scanStep ⟨false, none, 0, cur, row⟩ ',' = ⟨false, none, 0, [], row ++ [pyStrip cur]⟩ := by
  unfold scanStep
  rw [if_neg (by decide), if_neg (fun h => absurd h.1 (by decide)),
    if_neg (fun h => absurd h.1 (by decide)), if_pos ⟨rfl, rfl, rfl⟩]

theorem foldl_scan_bare : ∀ (cs : Str) (cur : Str) (row : List Str),
    cs.all isBareChar = true →
    List.foldl scanStep ⟨false, none, 0, cur, row⟩ cs = ⟨false, none, 0, cur ++ cs, row⟩
  | [], cur, row, _ => by simp
  | c :: cs, cur, row, h => by
    simp only [List.all_cons, Bool.and_eq_true] at h
    have hb := h.1
    simp only [isBareChar, Bool.and_eq_true, decide_eq_true_eq] at hb
    rw [List.foldl_cons,
      scanStep_append ⟨false, none, 0, cur, row⟩ c (by tauto) (by tauto) (by tauto) (by tauto)]
    rw [foldl_scan_bare cs (cur ++ [c]) row h.2]
    simp

theorem foldl_scan_inner : ∀ (cs : Str) (q : Char) (lvl : Int) (cur : Str) (row : List Str),
    cs.all isInnerChar = true →
    List.foldl scanStep ⟨true, some q, lvl, cur, row⟩ cs = ⟨true, some q, lvl, cur ++ cs, row⟩
  | [], _, _, cur, row, _ => by simp
  | c :: cs, q, lvl, cur, row, h => by
    simp only [List.all_cons, Bool.and_eq_true] at h
    have hb := h.1
    simp only [isInnerChar, Bool.and_eq_true, decide_eq_true_eq] at hb
    rw [List.foldl_cons,
      scanStep_inquotes_append ⟨true, some q, lvl, cur, row⟩ c rfl (by tauto)]
    rw [foldl_scan_inner cs q lvl (cur ++ [c]) row h.2]
    simp

theorem foldl_scan_field (f : SqlField) (cur : Str) (row : List Str)
    (hf : goodField f = true) :
    List.foldl scanStep ⟨false, none, 0, cur, row⟩ (renderField f)
      = ⟨false, none, 0, cur ++ renderField f, row⟩ := by
  cases f with
  | bare cs =>
    simp only [goodField, Bool.and_eq_true] at hf
    exact foldl_scan_bare cs cur row hf.2
  | quoted q inner =>
    simp only [goodField, Bool.and_eq_true, Bool.or_eq_true, decide_eq_true_eq] at hf
    show List.foldl scanStep _ (q :: (inner ++ [q])) = _
    rw [List.foldl_cons, scanStep_open cur row q hf.1, List.foldl_append,
      foldl_scan_inner inner q 0 (cur ++ [q]) row hf.2]
    rw [show List.foldl scanStep ⟨true, some q, 0, (cur ++ [q]) ++ inner, row⟩ [q]
        = scanStep ⟨true, some q, 0, (cur ++ [q]) ++ inner, row⟩ q from rfl]
    rw [scanStep_close _ row q hf.1]
    simp [renderField, List.append_assoc]

theorem foldl_scan_fields : ∀ (fs : List SqlField) (row : List Str),
    fs ≠ [] → fs.all goodField = true →
    List.foldl scanStep ⟨false, none, 0, [], row⟩ (tupleContent fs ++ [','])
      = ⟨false, none, 0, [], row ++ fs.map (fun f => pyStrip (renderField f))⟩
  | [], _, h, _ => absurd rfl h
  | [f], row, _, hall => by
    simp only [List.all_cons, Bool.and_eq_true] at hall
    show List.foldl scanStep _ (renderField f ++ [',']) = _
    rw [List.foldl_append, foldl_scan_field f [] row hall.1]
    rw [show List.foldl scanStep ⟨false, none, 0, [] ++ renderField f, row⟩ [','] =
        scanStep ⟨false, none, 0, [] ++ renderField f, row⟩ ',' from rfl]
    rw [scanStep_flush]
    simp
  | f :: g :: rest, row, _, hall => by
    simp only [List.all_cons, Bool.and_eq_true] at hall
    show List.foldl scanStep _ ((renderField f ++ ',' :: tupleContent (g :: rest)) ++ [','])
        = _
    rw [show (renderField f ++ ',' :: tupleContent (g :: rest)) ++ [','] =
        renderField f ++ (',' :: (tupleContent (g :: rest) ++ [','])) from by simp]
    rw [List.foldl_append, foldl_scan_field f [] row hall.1, List.foldl_cons, scanStep_flush]
    rw [foldl_scan_fields (g :: rest) (row ++ [pyStrip ([] ++ renderField f)]) (by simp)
      (by simp [List.all_cons, hall.2.1, hall.2.2])]
    simp

theorem scanTokens_tuple (fs : List SqlField) (h1 : fs ≠ []) (h2 : fs.all goodField = true) :
    scanTokens (tupleContent fs) = fs.map (fun f => pyStrip (renderField f)) := by
  unfold scanTokens
  rw [foldl_scan_fields fs [] h1 h2]
  simp

theorem pyStrip_renderField (f : SqlField) (hf : goodField f = true) :
    pyStrip (renderField f) = renderField f := by
  cases f with
  | bare cs =>
    simp only [goodField, Bool.and_eq_true, List.all_eq_true] at hf
    have hns : ∀ c ∈ cs, isPySpace c = false := by
      intro c hc
      have hb := hf.2 c hc
      simp only [isBareChar, Bool.and_eq_true] at hb
      simpa using hb.2
    have hL : pyStripL cs = cs := by
      cases cs with
      | nil => rfl
      | cons a t =>
        unfold pyStripL
        rw [List.dropWhile_cons,
          if_neg (by rw [hns a (List.mem_cons_self a t)]; exact Bool.false_ne_true)]
    have hR : pyStripR cs = cs := by
      unfold pyStripR
      cases hrev : cs.reverse with
      | nil =>
        rw [List.dropWhile_nil, ← hrev, List.reverse_reverse]
      | cons a t =>
        have ha : isPySpace a = false :=
          hns a (List.mem_reverse.mp (hrev ▸ List.mem_cons_self a t))
        rw [List.dropWhile_cons, if_neg (by rw [ha]; exact Bool.false_ne_true),
          ← hrev, List.reverse_reverse]
    show pyStripR (pyStripL cs) = cs
    rw [hL, hR]
  | quoted q inner =>
    simp only [goodField, Bool.and_eq_true, Bool.or_eq_true, decide_eq_true_eq] at hf
    have hqs : isPySpace q = false := by rcases hf.1 with rfl | rfl <;> rfl
    show pyStrip ((q :: inner) ++ [q]) = (q :: inner) ++ [q]
    unfold pyStrip
    rw [show pyStripL ((q :: inner) ++ [q]) = (q :: inner) ++ [q] from by
      unfold pyStripL
      rw [show ((q :: inner) ++ [q] : Str) = q :: (inner ++ [q]) from rfl,
        List.dropWhile_cons, if_neg (by rw [hqs]; exact Bool.false_ne_true)]]
    exact pyStripR_concat _ _ hqs

theorem renderField_ne_nil (f : SqlField) (hf : goodField f = true) :
    renderField f ≠ [] := by
  cases f with
  | bare cs =>
    simp only [goodField, Bool.and_eq_true] at hf
    cases cs with
    | nil => exact absurd hf.1 (by decide)
    | cons a t => simp [renderField]
  | quoted q inner => simp [renderField]

theorem processGroup_tuple (fs : List SqlField) (h1 : fs ≠ [])
    (h2 : fs.all goodField = true) :
    (processGroup (tupleContent fs)).length = fs.length := by
  unfold processGroup
  rw [scanTokens_tuple fs h1 h2]
  have hkeep : ∀ v ∈ fs.map (fun f => pyStrip (renderField f)),
      (!(pyStrip v).isEmpty) = true := by
    intro v hv
    rcases List.mem_map.mp hv with ⟨f, hf, rfl⟩
    have hg := List.all_eq_true.mp h2 f hf
    rw [pyStrip_renderField f hg, pyStrip_renderField f hg]
    have := renderField_ne_nil f hg
    cases hrf : renderField f with
    | nil => exact absurd hrf this
    | cons a t => rfl
  rw [List.filter_eq_self.mpr hkeep]
  simp

theorem valuesRegion_mkInsert (t : Str) (ts : List (List SqlField))
    (hT : hasSubstrB litVALUES ("INSERT INTO ".toList ++ t ++ [' ']) = false)
    (hv : hasSubstrB litvalue (renderTuples ts) = false) :
    valuesRegion (mkInsert t ts) = renderTuples ts := by
  unfold valuesRegion
  rw [afterFirst_mkInsert t ts hT,
    afterFirst_of_not_hasSubstr _ _ (hasSubstr_value_space _ hv)]
  cases ts with
  | nil => rfl
  | cons fs rest =>
    obtain ⟨mid, hmid⟩ := renderTuples_shape (fs :: rest) (by simp)
    rw [hmid]
    exact pyStrip_space_parens mid

theorem foldl_collect : ∀ (gs : List Str) (acc : List (List Str)),
    (∀ g ∈ gs, (processGroup g).isEmpty = false) →
    (gs.foldl
      (fun rows g =>
        let row := processGroup g
        if row.isEmpty then rows else rows ++ [row])
      acc).length = acc.length + gs.length
  | [], acc, _ => by simp
  | g :: gs, acc, h => by
    rw [List.foldl_cons]
    have hg := h g (List.mem_cons_self _ _)
    have hstep : (let row := processGroup g
        if row.isEmpty then acc else acc ++ [row]) = acc ++ [processGroup g] := by
      show (if (processGroup g).isEmpty then acc else acc ++ [processGroup g]) = _
      rw [if_neg (by rw [hg]; exact Bool.false_ne_true)]
    rw [hstep,
      foldl_collect gs (acc ++ [processGroup g]) (fun x hx => h x (List.mem_cons_of_mem _ hx))]
    simp
    omega

theorem parse_mkInsert_length (t : Str) (ts : List (List SqlField))
    (hts : goodTuples ts = true)
    (hT : hasSubstrB litVALUES ("INSERT INTO ".toList ++ t ++ [' ']) = false)
    (hv : hasSubstrB litvalue (renderTuples ts) = false) :
    (parse_insert_values (mkInsert t ts)).length = ts.length := by
  unfold parse_insert_values
  have hVal : hasSubstrB litVALUES (mkInsert t ts) = true := by
    rw [mkInsert_decomp]
    exact hasSubstrB_middle litVALUES (' ' :: renderTuples ts) _
  rw [if_neg (by rw [hVal]; simp)]
  rw [valuesRegion_mkInsert t ts hT hv, findGroups_renderTuples ts hts]
  cases ts with
  | nil => simp
  | cons fs rest =>
    rw [if_neg (by simp)]
    have hall : ∀ g ∈ (fs :: rest).map tupleContent, (processGroup g).isEmpty = false := by
      intro g hg
      rcases List.mem_map.mp hg with ⟨fs', hfs', rfl⟩
      have hgood := List.all_eq_true.mp hts fs' hfs'
      simp only [Bool.and_eq_true] at hgood
      have hne : fs' ≠ [] := by
        cases fs' with
        | nil => exact absurd hgood.1 (by decide)
        | cons _ _ => simp
      have hlen := processGroup_tuple fs' hne hgood.2
      cases hpg : processGroup (tupleContent fs') with
      | nil =>
        rw [hpg] at hlen
        exact absurd (List.length_eq_zero.mp hlen.symm) hne
      | cons _ _ => rfl
    rw [foldl_collect _ [] hall]
    simp

theorem isCreateStmt_cons_I (l : Str) : isCreateStmt ('I' :: l) = false := rfl

theorem mkInsert_cons_I (t : Str) (ts : List (List SqlField)) :
    mkInsert t ts = 'I' :: ("NSERT INTO ".toList ++ t ++ " VALUES ".toList ++ renderTuples ts) := by
  unfold mkInsert
  rw [show "INSERT INTO ".toList = 'I' :: "NSERT INTO ".toList from rfl]
  simp [List.cons_append]

theorem isInsertStmt_mkInsert (t : Str) (ts : List (List SqlField)) :
    isInsertStmt (mkInsert t ts) = true := by
  unfold isInsertStmt
  have h : ("INSERT INTO".toList).isPrefixOf (upperL (mkInsert t ts)) = true := by
    unfold mkInsert upperL
    rw [List.map_append, List.map_append, List.map_append]
    rw [show List.map Char.toUpper "INSERT INTO ".toList
        = "INSERT INTO".toList ++ [' '] from by decide]
    have h2 := isPrefixOf_self_append ("INSERT INTO".toList)
      ([' '] ++ (List.map Char.toUpper t ++
        (List.map Char.toUpper " VALUES ".toList ++ List.map Char.toUpper (renderTuples ts))))
    simp only [List.append_assoc]
    exact h2
  rw [h, Bool.true_or]

/-! ## Claim C9 -/

/-- C9: a one-character field consisting of a single quote character (either
kind) normalizes to the empty string, because the quote-pair strip condition
does not require length at least 2 and `val[1:-1]` of a singleton is empty. -/
theorem claim_C9 : _clean_value ['\''] = [] ∧ _clean_value ['"'] = [] := by decide

/-! ## Claim C3 -/

/-- C3, as stated, is false: `NULL` contains no delimiter, quote, or escape
character, yet the normalizer maps it to the empty string. -/
theorem claim_C3_counterexample :
    (∀ c ∈ "NULL".toList, c ≠ ',' ∧ c ≠ '"' ∧ c ≠ '\'' ∧ c ≠ '\\') ∧
    _clean_value "NULL".toList ≠ "NULL".toList := by decide

/-- C3 (amended): a field value with no delimiter, quote, or escape
character that is not `NULL` case-insensitively is returned unchanged by the
normalizer. -/
theorem claim_C3_amended (v : Str)
    (h1 : ∀ c ∈ v, c ≠ ',' ∧ c ≠ '"' ∧ c ≠ '\'' ∧ c ≠ '\\')
    (h2 : upperL v ≠ "NULL".toList) :
    _clean_value v = v := by
  have hq : ¬ ((v.head? = some '"' ∧ v.getLast? = some '"') ∨
      (v.head? = some '\'' ∧ v.getLast? = some '\'')) := by
    rintro (⟨hh, _⟩ | ⟨hh, _⟩) <;>
      [skip; skip] <;>
      · cases v with
        | nil => simp at hh
        | cons c t =>
          simp only [List.head?_cons, Option.some.injEq] at hh
          have := h1 c (List.mem_cons_self c t)
          subst hh
          simp_all
  unfold _clean_value
  rw [if_neg h2, if_neg hq]
  exact unescapeSeq_of_no_backslash v (fun hc => ((h1 _ hc).2.2.2 rfl))

theorem claim_C3_witness :
    upperL "Alice".toList ≠ "NULL".toList ∧
    _clean_value "Alice".toList = "Alice".toList :=
  ⟨by decide, claim_C3_amended _ (by decide) (by decide)⟩

/-! ## Claim C8 -/

/-- C8: the normalizer rules — `NULL` (any case) yields the empty string; a
matching quote pair is stripped exactly once and the escape substitutions of
`unescapeSeq` (in the source's order `\\`, `\'`, `\"`) are applied to the
remainder; an unquoted non-NULL value gets only the substitutions; and the
spec's concrete quote-escape laws hold. -/
theorem claim_C8 :
    (∀ v : Str, upperL v = "NULL".toList → _clean_value v = []) ∧
    (∀ (q : Char) (v : Str), q = '"' ∨ q = '\'' →
      upperL (q :: v ++ [q]) ≠ "NULL".toList →
      _clean_value (q :: v ++ [q]) = unescapeSeq v) ∧
    (∀ v : Str, upperL v ≠ "NULL".toList → v.head? ≠ some '"' → v.head? ≠ some '\'' →
      _clean_value v = unescapeSeq v) ∧
    _clean_value "\"O\\\"Brien\"".toList = "O\"Brien".toList ∧
    _clean_value "'it\\'s'".toList = "it's".toList := by
  refine ⟨fun v h => ?_, fun q v hq hn => ?_, fun v hn hh1 hh2 => ?_, by decide, by decide⟩
  · unfold _clean_value
    rw [if_pos h]
  · have hh : (q :: v ++ [q]).head? = some q := rfl
    have hl : (q :: v ++ [q]).getLast? = some q := by
      rw [show q :: v ++ [q] = (q :: v) ++ [q] from rfl]
      exact List.getLast?_concat _
    have hcond : ((q :: v ++ [q]).head? = some '"' ∧ (q :: v ++ [q]).getLast? = some '"') ∨
        ((q :: v ++ [q]).head? = some '\'' ∧ (q :: v ++ [q]).getLast? = some '\'') := by
      rcases hq with h | h <;> subst h
      · exact Or.inl ⟨hh, hl⟩
      · exact Or.inr ⟨hh, hl⟩
    unfold _clean_value
    rw [if_neg hn, if_pos hcond]
    congr 1
    simp [List.dropLast_concat]
  · unfold _clean_value
    rw [if_neg hn, if_neg]
    rintro (⟨h, _⟩ | ⟨h, _⟩)
    · exact hh1 h
    · exact hh2 h

theorem claim_C8_witness :
    _clean_value "NuLl".toList = [] ∧
    _clean_value "'ab'".toList = unescapeSeq "ab".toList :=
  ⟨claim_C8.1 _ (by decide),
   by
    have h := claim_C8.2.1 '\'' "ab".toList (Or.inr rfl) (by decide)
    simpa using h⟩

/-! ## Claim C2 -/

/-- C2, as stated, is false: the source splits on the first `value` also
when `VALUES` is present (the two splits are chained), so a later lowercase
`value` does change the values-region. Concretely, for
`INSERT INTO t VALUES ('value'),(2)` the region the code uses differs from
the everything-after-`VALUES` region of the claim, and only one row is
parsed. -/
theorem claim_C2_counterexample :
    hasSubstrB litVALUES "INSERT INTO t VALUES ('value'),(2)".toList = true ∧
    valuesRegion "INSERT INTO t VALUES ('value'),(2)".toList ≠
      valuesRegionSpec "INSERT INTO t VALUES ('value'),(2)".toList ∧
    parse_insert_values "INSERT INTO t VALUES ('value'),(2)".toList = [["2".toList]] := by
  decide

/-- C2 (amended): the split on `value` is chained after the split on
`VALUES`, not a fallback; the values-region matches the spec's description
only when the suffix after the first `VALUES` contains no occurrence of the
substring `value`, and in that case it is everything after `VALUES`. -/
theorem claim_C2_amended (line : Str)
    (h1 : hasSubstrB litVALUES line = true)
    (h2 : hasSubstrB litvalue (afterFirst litVALUES line) = false) :
    valuesRegion line = pyStrip (afterFirst litVALUES line) ∧
    valuesRegion line = valuesRegionSpec line := by
  have hr : valuesRegion line = pyStrip (afterFirst litVALUES line) := by
    unfold valuesRegion
    rw [afterFirst_of_not_hasSubstr _ _ h2]
  refine ⟨hr, ?_⟩
  rw [hr]
  unfold valuesRegionSpec
  rw [if_pos h1]

theorem claim_C2_witness :
    valuesRegion "INSERT INTO t VALUES (1,'Alice'),(2,'Bob')".toList =
      pyStrip (afterFirst litVALUES "INSERT INTO t VALUES (1,'Alice'),(2,'Bob')".toList) ∧
    valuesRegion "INSERT INTO t VALUES (1,'Alice'),(2,'Bob')".toList =
      valuesRegionSpec "INSERT INTO t VALUES (1,'Alice'),(2,'Bob')".toList :=
  claim_C2_amended _ (by decide) (by decide)

/-! ## Claim C7 -/

/-- C7: the quote/paren/comma state machine of the tokenizer — a quote
character opens a span only when not in quotes; only the opening quote
character closes it and the other kind is a literal; a comma separates
exactly when not in quotes at paren level 0, flushing the trimmed field and
being consumed, and otherwise is appended. -/
theorem claim_C7 (st : ScanState) (c : Char) :
    ((c = '"' ∨ c = '\'') → st.inQuotes = false →
      scanStep st c =
        { st with inQuotes := true, quoteChar := some c, current := st.current ++ [c] }) ∧
    (∀ q, (c = '"' ∨ c = '\'') → st.inQuotes = true → st.quoteChar = some q → c = q →
      scanStep st c =
        { st with inQuotes := false, quoteChar := none, current := st.current ++ [c] }) ∧
    (∀ q, (c = '"' ∨ c = '\'') → st.inQuotes = true → st.quoteChar = some q → c ≠ q →
      scanStep st c = { st with current := st.current ++ [c] }) ∧
    (c = ',' → st.inQuotes = false → st.parenLevel = 0 →
      scanStep st c = { st with row := st.row ++ [pyStrip st.current], current := [] }) ∧
    (c = ',' → (st.inQuotes = true ∨ st.parenLevel ≠ 0) →
      scanStep st c = { st with current := st.current ++ [c] }) := by
  refine ⟨fun hq hf => ?_, fun q hq ht hqc hcq => ?_, fun q hq ht hqc hcq => ?_,
    fun hc hf hp => ?_, fun hc hd => ?_⟩
  · unfold scanStep
    rw [if_pos hq, if_pos hf]
  · unfold scanStep
    rw [if_pos hq, if_neg (by simp [ht]), if_pos (by rw [hqc, hcq])]
  · unfold scanStep
    rw [if_pos hq, if_neg (by simp [ht]), if_neg (by simp [hqc]; exact fun h => hcq h.symm)]
  · subst hc
    unfold scanStep
    rw [if_neg (by decide), if_neg (by simp), if_neg (by simp),
      if_pos ⟨rfl, hf, hp⟩]
  · subst hc
    unfold scanStep
    rw [if_neg (by decide), if_neg (by simp), if_neg (by simp), if_neg]
    rintro ⟨-, h2, h3⟩
    rcases hd with h | h
    · rw [h] at h2; cases h2
    · exact h h3

theorem claim_C7_witness :
    scanStep ⟨false, none, 0, [], []⟩ '\'' = ⟨true, some '\'', 0, ['\''], []⟩ ∧
    scanStep ⟨true, some '\'', 0, ['a'], []⟩ '"' = ⟨true, some '\'', 0, ['a', '"'], []⟩ ∧
    scanStep ⟨false, none, 0, [' ', 'x'], []⟩ ',' = ⟨false, none, 0, [], [['x']]⟩ ∧
    scanStep ⟨true, some '"', 0, ['y'], []⟩ ',' = ⟨true, some '"', 0, ['y', ','], []⟩ := by
  refine ⟨?_, ?_, ?_, ?_⟩
  · have h := (claim_C7 ⟨false, none, 0, [], []⟩ '\'').1 (Or.inr rfl) rfl
    simpa using h
  · have h := (claim_C7 ⟨true, some '\'', 0, ['a'], []⟩ '"').2.2.1 '\'' (Or.inl rfl) rfl rfl
      (by decide)
    simpa using h
  · have h := (claim_C7 ⟨false, none, 0, [' ', 'x'], []⟩ ',').2.2.2.1 rfl rfl rfl
    simpa [pyStrip, pyStripL, pyStripR, isPySpace] using h
  · have h := (claim_C7 ⟨true, some '"', 0, ['y'], []⟩ ',').2.2.2.2 rfl (Or.inl rfl)
    simpa using h

/-! ## Claim C10 -/

/-- C10: the empty-field filter tests the raw token before normalization — a
token that trims to nothing (between consecutive top-level commas, or pure
whitespace) is dropped, while the raw tokens `NULL` and `''` pass the filter
and land in the row as empty strings after normalization. -/
theorem claim_C10 :
    scanTokens "1,,NULL,''".toList = ["1".toList, [], "NULL".toList, "''".toList] ∧
    parse_insert_values "INSERT INTO t VALUES (1,,NULL,'')".toList =
      [["1".toList, [], []]] ∧
    parse_insert_values "INSERT INTO t VALUES ( , )".toList = [] ∧
    pyStrip "NULL".toList ≠ [] ∧ pyStrip "''".toList ≠ [] ∧
    _clean_value "NULL".toList = [] ∧ _clean_value "''".toList = [] := by decide

/-! ## Claim C5 -/

/-- C5: the two-statement scenario produces exactly one output file `t.csv`
holding the header record `id,name` followed by the records `1,Alice` and
`2,Bob`, in that order, with no error. -/
theorem claim_C5 :
    (convertLines demoLines).error = false ∧
    (convertLines demoLines).sinks.map sinkFileName = ["t.csv".toList] ∧
    (convertLines demoLines).sinks.map sinkLines =
      [["id,name".toList, "1,Alice".toList, "2,Bob".toList]] := by decide

/-! ## Claim C1 -/

/-- C1: evaluation at the failing input. After `CREATE TABLE a (x INT);`
opens a sink, the statement `CREATE TABLE b (PRIMARY KEY (x));` recovers the
name `b` but zero usable columns, so no new sink is opened — yet
`current_table` is truthy and `csv_writer` still points at the closed sink,
so `INSERT INTO b VALUES (1);` writes to a closed file and raises, contrary
to the claim that such inserts are dropped silently with no error. -/
theorem claim_C1_failing_run :
    parse_create_table "CREATE TABLE b (PRIMARY KEY (x))".toList = some ['b'] ∧
    get_column_names "CREATE TABLE b (PRIMARY KEY (x))".toList = [] ∧
    (runLines bugLines).currentTable = some ['b'] ∧
    (convertLines bugLines).sinks.map Sink.isOpen = [false] ∧
    (convertLines bugLines).error = true := by decide

/-! ## Claim C6: the single-open-sink resource invariant -/

theorem setOpen_getElem?_self (b : Bool) :
    ∀ (l : List Sink) (i : Nat),
      (setOpen b l i)[i]? = l[i]?.map (fun k => { k with isOpen := b })
  | [], i => by simp [setOpen]
  | k :: rest, 0 => by simp [setOpen]
  | k :: rest, n + 1 => by
    simpa [setOpen] using setOpen_getElem?_self b rest n

theorem setOpen_getElem?_ne (b : Bool) :
    ∀ (l : List Sink) (i j : Nat), i ≠ j → (setOpen b l i)[j]? = l[j]?
  | [], _, _, _ => by simp [setOpen]
  | k :: rest, 0, 0, h => absurd rfl h
  | k :: rest, 0, j + 1, _ => by simp [setOpen]
  | k :: rest, i + 1, 0, _ => by simp [setOpen]
  | k :: rest, i + 1, j + 1, h => by
    simpa [setOpen] using setOpen_getElem?_ne b rest i j (fun hc => h (by rw [hc]))

theorem addRows_getElem?_self (rows : List (List Str)) :
    ∀ (l : List Sink) (i : Nat),
      (addRows rows l i)[i]? = l[i]?.map (fun k => { k with rows := k.rows ++ rows })
  | [], i => by simp [addRows]
  | k :: rest, 0 => by simp [addRows]
  | k :: rest, n + 1 => by
    simpa [addRows] using addRows_getElem?_self rows rest n

theorem addRows_getElem?_ne (rows : List (List Str)) :
    ∀ (l : List Sink) (i j : Nat), i ≠ j → (addRows rows l i)[j]? = l[j]?
  | [], _, _, _ => by simp [addRows]
  | k :: rest, 0, 0, h => absurd rfl h
  | k :: rest, 0, j + 1, _ => by simp [addRows]
  | k :: rest, i + 1, 0, _ => by simp [addRows]
  | k :: rest, i + 1, j + 1, h => by
    simpa [addRows] using addRows_getElem?_ne rows rest i j (fun hc => h (by rw [hc]))

theorem setOpen_length (b : Bool) :
    ∀ (l : List Sink) (i : Nat), (setOpen b l i).length = l.length
  | [], _ => rfl
  | _ :: rest, 0 => rfl
  | _ :: rest, n + 1 => by simp [setOpen, setOpen_length b rest n]

theorem closeSink_sinks_of_none (s : ConvState) (h : s.writerRef = none) :
    (closeSink s).sinks = s.sinks := by
  unfold closeSink
  rw [h]

theorem closeSink_sinks_of_some (s : ConvState) (r : Nat) (h : s.writerRef = some r) :
    (closeSink s).sinks = setOpen false s.sinks r := by
  unfold closeSink
  rw [h]

theorem closeSink_writerRef (s : ConvState) : (closeSink s).writerRef = s.writerRef := by
  unfold closeSink
  cases h : s.writerRef with
  | none => exact h
  | some r => rfl

theorem closeSink_error (s : ConvState) : (closeSink s).error = s.error := by
  unfold closeSink
  cases s.writerRef <;> rfl

theorem closeSink_length (s : ConvState) :
    (closeSink s).sinks.length = s.sinks.length := by
  cases h : s.writerRef with
  | none => rw [closeSink_sinks_of_none s h]
  | some r => rw [closeSink_sinks_of_some s r h]; exact setOpen_length false s.sinks r

/-- After `closeSink`, no sink at all is open (the invariant allows only the
referenced sink to be open, and that one just got closed). -/
theorem closeSink_closed (s : ConvState) (hInv : InvP s) :
    ∀ (i : Nat) (k : Sink), (closeSink s).sinks[i]? = some k → k.isOpen = false := by
  intro i k hget
  cases href : s.writerRef with
  | none =>
    rw [closeSink_sinks_of_none s href] at hget
    cases hko : k.isOpen with
    | false => rfl
    | true =>
      obtain ⟨hr, -⟩ := hInv i k hget hko
      rw [href] at hr
      cases hr
  | some r =>
    rw [closeSink_sinks_of_some s r href] at hget
    by_cases hir : r = i
    · subst hir
      rw [setOpen_getElem?_self] at hget
      cases hsk : s.sinks[r]? with
      | none => rw [hsk] at hget; cases hget
      | some k0 =>
        rw [hsk] at hget
        have h2 : some ({ k0 with isOpen := false } : Sink) = some k := hget
        rw [← Option.some.inj h2]
    · rw [setOpen_getElem?_ne _ _ _ _ hir] at hget
      cases hko : k.isOpen with
      | false => rfl
      | true =>
        obtain ⟨hr, -⟩ := hInv i k hget hko
        rw [href] at hr
        exact absurd (Option.some.inj hr) hir

theorem createStep_pos_fields (s : ConvState) (stmt : Str)
    (hok : ((parse_create_table stmt).isSome && !(get_column_names stmt).isEmpty) = true) :
    (createStep s stmt).sinks = (closeSink s).sinks ++
      [⟨(parse_create_table stmt).getD [], get_column_names stmt, [], true⟩] ∧
    (createStep s stmt).writerRef = some (closeSink s).sinks.length ∧
    (createStep s stmt).error = s.error ∧
    (createStep s stmt).currentTable = parse_create_table stmt := by
  unfold createStep
  rw [if_pos hok]
  exact ⟨rfl, rfl, closeSink_error s, rfl⟩

theorem createStep_neg_fields (s : ConvState) (stmt : Str)
    (hok : ¬ ((parse_create_table stmt).isSome && !(get_column_names stmt).isEmpty) = true) :
    (createStep s stmt).sinks = (closeSink s).sinks ∧
    (createStep s stmt).writerRef = s.writerRef ∧
    (createStep s stmt).error = s.error ∧
    (createStep s stmt).currentTable = parse_create_table stmt := by
  unfold createStep
  rw [if_neg hok]
  exact ⟨rfl, closeSink_writerRef s, closeSink_error s, rfl⟩

theorem invP_createStep (s : ConvState) (stmt : Str)
    (hInv : InvP s) (herr : s.error = false) : InvP (createStep s stmt) := by
  intro i k hget hopen
  by_cases hok : ((parse_create_table stmt).isSome && !(get_column_names stmt).isEmpty) = true
  · obtain ⟨hsinks, href, herr', -⟩ := createStep_pos_fields s stmt hok
    rw [hsinks] at hget
    rcases Nat.lt_or_ge i (closeSink s).sinks.length with hlt | hge
    · rw [List.getElem?_append_left hlt] at hget
      rw [closeSink_closed s hInv i k hget] at hopen
      cases hopen
    · rw [List.getElem?_append_right hge] at hget
      cases hd : i - (closeSink s).sinks.length with
      | zero =>
        have hi : i = (closeSink s).sinks.length := by omega
        subst hi
        rw [herr', href]
        exact ⟨rfl, herr⟩
      | succ m =>
        rw [hd] at hget
        simp at hget
  · obtain ⟨hsinks, -, -, -⟩ := createStep_neg_fields s stmt hok
    rw [hsinks] at hget
    rw [closeSink_closed s hInv i k hget] at hopen
    cases hopen

theorem writeRows_eqn (s : ConvState) (rows : List (List Str)) (r : Nat) (kr : Sink)
    (hks : s.sinks[r]? = some kr) :
    writeRows s rows r =
      (if kr.isOpen then { s with sinks := addRows rows s.sinks r }
       else if rows.isEmpty then s
       else { s with error := true }) := by
  unfold writeRows
  rw [hks]

theorem writeRows_none (s : ConvState) (rows : List (List Str)) (r : Nat)
    (hks : s.sinks[r]? = none) : writeRows s rows r = s := by
  unfold writeRows
  rw [hks]

theorem insertStep_of_ref_some (s : ConvState) (stmt : Str) (r : Nat)
    (href : s.writerRef = some r) :
    insertStep s stmt = writeRows s (parse_insert_values stmt) r := by
  unfold insertStep
  rw [href]

theorem insertStep_of_ref_none (s : ConvState) (stmt : Str)
    (href : s.writerRef = none) : insertStep s stmt = s := by
  unfold insertStep
  rw [href]

theorem invP_insertStep (s : ConvState) (stmt : Str)
    (hInv : InvP s) (herr : s.error = false) : InvP (insertStep s stmt) := by
  intro i k hget hopen
  cases href : s.writerRef with
  | none =>
    rw [insertStep_of_ref_none s stmt href] at hget ⊢
    exact hInv i k hget hopen
  | some r =>
    rw [insertStep_of_ref_some s stmt r href] at hget ⊢
    cases hks : s.sinks[r]? with
    | none =>
      rw [writeRows_none _ _ _ hks] at hget ⊢
      exact hInv i k hget hopen
    | some kr =>
      rw [writeRows_eqn _ _ _ _ hks] at hget ⊢
      by_cases hko : kr.isOpen = true
      · rw [if_pos hko] at hget ⊢
        by_cases hir : r = i
        · subst hir
          have hget' : (addRows (parse_insert_values stmt) s.sinks r)[r]? = some k := hget
          rw [addRows_getElem?_self, hks] at hget'
          exact ⟨href, herr⟩
        · have hget' : (addRows (parse_insert_values stmt) s.sinks r)[i]? = some k := hget
          rw [addRows_getElem?_ne _ _ _ _ hir] at hget'
          obtain ⟨h1, h2⟩ := hInv i k hget' hopen
          exact ⟨h1, h2⟩
      · rw [if_neg hko] at hget ⊢
        by_cases hemp : (parse_insert_values stmt).isEmpty = true
        · rw [if_pos hemp] at hget ⊢
          exact hInv i k hget hopen
        · rw [if_neg hemp] at hget ⊢
          exfalso
          obtain ⟨h1, -⟩ := hInv i k hget hopen
          rw [href] at h1
          have hri : r = i := Option.some.inj h1
          subst hri
          rw [hks] at hget
          exact hko (Option.some.inj hget ▸ hopen)

theorem invP_processStatement (s : ConvState) (stmt : Str)
    (hInv : InvP s) (herr : s.error = false) : InvP (processStatement s stmt) := by
  unfold processStatement
  by_cases hcr : isCreateStmt stmt = true
  · rw [if_pos hcr]
    exact invP_createStep s stmt hInv herr
  · rw [if_neg hcr]
    by_cases hins : (isInsertStmt stmt && s.currentTable.isSome && s.writerRef.isSome) = true
    · rw [if_pos hins]
      exact invP_insertStep s stmt hInv herr
    · rw [if_neg hins]
      exact hInv

theorem invP_processLine (s : ConvState) (l : Str) (hInv : InvP s) :
    InvP (processLine s l) := by
  unfold processLine
  by_cases herr : s.error = true
  · rw [if_pos herr]
    exact hInv
  · have herr' : s.error = false := by
      revert herr; cases s.error <;> simp
    rw [if_neg herr]
    by_cases hskip : ((pyStrip l).isEmpty || ("--".toList).isPrefixOf (pyStrip l) ||
        ("/*".toList).isPrefixOf (pyStrip l) || ("SET ".toList).isPrefixOf (pyStrip l)) = true
    · rw [if_pos hskip]
      exact hInv
    · rw [if_neg hskip]
      by_cases hsemi : endsWithSemi (pyStrip (s.buffer ++ ' ' :: pyStrip l)) = true
      · rw [if_pos hsemi]
        exact invP_processStatement { s with buffer := [] } _ hInv herr'
      · rw [if_neg hsemi]
        exact hInv

theorem invP_foldl : ∀ (ls : List Str) (s : ConvState), InvP s → InvP (ls.foldl processLine s)
  | [], _, h => h
  | l :: ls, s, h => invP_foldl ls _ (invP_processLine s l h)

theorem invP_init : InvP initState := by
  intro i k hget _
  simp [initState] at hget

theorem invP_runLines (lines : List Str) : InvP (runLines lines) :=
  invP_foldl lines initState invP_init

/-- C6: at most one sink is open at every point of any run; every CREATE
TABLE statement closes all previously existing sinks (any newly opened sink
is a fresh one); and when the run ends every sink is closed. -/
theorem claim_C6 (lines : List Str) :
    (∀ (n i j : Nat) (ki kj : Sink),
      (runLines (lines.take n)).sinks[i]? = some ki → ki.isOpen = true →
      (runLines (lines.take n)).sinks[j]? = some kj → kj.isOpen = true → i = j) ∧
    (∀ (i : Nat) (k : Sink), (convertLines lines).sinks[i]? = some k → k.isOpen = false) ∧
    (∀ (s : ConvState) (stmt : Str), InvP s → isCreateStmt stmt = true →
      ∀ (i : Nat) (k : Sink), i < s.sinks.length →
        (processStatement s stmt).sinks[i]? = some k → k.isOpen = false) := by
  refine ⟨fun n i j ki kj hgi hoi hgj hoj => ?_, fun i k hget => ?_,
    fun s stmt hInv hcr i k hlt hget => ?_⟩
  · have hInv := invP_runLines (lines.take n)
    obtain ⟨h1, -⟩ := hInv i ki hgi hoi
    obtain ⟨h2, -⟩ := hInv j kj hgj hoj
    exact Option.some.inj (h1 ▸ h2)
  · have hInv := invP_runLines lines
    unfold convertLines at hget
    by_cases herr : (runLines lines).error = true
    · rw [if_pos herr] at hget
      cases hko : k.isOpen with
      | false => rfl
      | true =>
        obtain ⟨-, h2⟩ := hInv i k hget hko
        rw [herr] at h2
        cases h2
    · rw [if_neg herr] at hget
      exact closeSink_closed _ hInv i k hget
  · unfold processStatement at hget
    rw [if_pos hcr] at hget
    by_cases hok : ((parse_create_table stmt).isSome && !(get_column_names stmt).isEmpty) = true
    · obtain ⟨hsinks, -, -, -⟩ := createStep_pos_fields s stmt hok
      rw [hsinks] at hget
      have hlt' : i < (closeSink s).sinks.length := by
        rw [closeSink_length]; exact hlt
      rw [List.getElem?_append_left hlt'] at hget
      exact closeSink_closed s hInv i k hget
    · obtain ⟨hsinks, -, -, -⟩ := createStep_neg_fields s stmt hok
      rw [hsinks] at hget
      exact closeSink_closed s hInv i k hget

theorem claim_C6_witness :
    (Sink.isOpen ⟨"t".toList, ["id".toList, "name".toList],
      [["1".toList, "Alice".toList], ["2".toList, "Bob".toList]], false⟩ = false) ∧
    (Sink.isOpen ⟨"t".toList, ["id".toList, "name".toList], [], false⟩ = false) :=
  ⟨(claim_C6 demoLines).2.1 0 _ (by decide),
   (claim_C6 demoLines).2.2 (runLines (demoLines.take 1))
     "CREATE TABLE u (y INT)".toList (invP_runLines _) (by decide) 0 _ (by decide) (by decide)⟩

/-! ## Claim C4 -/

/-- C4, as stated, is false: `INSERT INTO t VALUES ('value'),(2)` is a
well-formed two-tuple statement, but the chained `value` split cuts the
values-region and only one row is parsed. -/
theorem claim_C4_counterexample :
    goodTuples [[SqlField.quoted '\'' "value".toList], [SqlField.bare ['2']]] = true ∧
    mkInsert ['t'] [[SqlField.quoted '\'' "value".toList], [SqlField.bare ['2']]]
      = "INSERT INTO t VALUES ('value'),(2)".toList ∧
    (parse_insert_values (mkInsert ['t']
        [[SqlField.quoted '\'' "value".toList], [SqlField.bare ['2']]])).length ≠
      ([[SqlField.quoted '\'' "value".toList], [SqlField.bare ['2']]] :
        List (List SqlField)).length := by decide

/-- C4 (amended): for a well-formed `INSERT INTO t VALUES (...), (...)`
statement whose values-region contains no lowercase `value` substring (and
whose head does not smuggle a `VALUES`), processed for a table with an open
sink, the number of rows appended to the sink equals the number of top-level
parenthesized tuples. -/
theorem claim_C4_amended (s : ConvState) (t : Str) (ts : List (List SqlField))
    (i : Nat) (k : Sink)
    (hts : goodTuples ts = true)
    (hT : hasSubstrB litVALUES ("INSERT INTO ".toList ++ t ++ [' ']) = false)
    (hv : hasSubstrB litvalue (renderTuples ts) = false)
    (hct : s.currentTable.isSome = true)
    (href : s.writerRef = some i)
    (hk : s.sinks[i]? = some k)
    (hopen : k.isOpen = true) :
    (parse_insert_values (mkInsert t ts)).length = ts.length ∧
    (processStatement s (mkInsert t ts)).sinks[i]?
      = some { k with rows := k.rows ++ parse_insert_values (mkInsert t ts) } := by
  refine ⟨parse_mkInsert_length t ts hts hT hv, ?_⟩
  have hcr : isCreateStmt (mkInsert t ts) = false := by
    rw [mkInsert_cons_I]
    exact isCreateStmt_cons_I _
  have hins : isInsertStmt (mkInsert t ts) = true := isInsertStmt_mkInsert t ts
  unfold processStatement
  rw [if_neg (by rw [hcr]; exact Bool.false_ne_true)]
  rw [if_pos (by rw [hins, hct, href]; rfl)]
  rw [insertStep_of_ref_some s _ i href, writeRows_eqn s _ i k hk, if_pos hopen]
  have hres : (addRows (parse_insert_values (mkInsert t ts)) s.sinks i)[i]?
      = some { k with rows := k.rows ++ parse_insert_values (mkInsert t ts) } := by
    rw [addRows_getElem?_self, hk]
    rfl
  exact hres

theorem claim_C4_witness :
    (parse_insert_values (mkInsert ['t']
      [[SqlField.bare ['1'], SqlField.quoted '\'' "Alice".toList],
       [SqlField.bare ['2'], SqlField.quoted '\'' "Bob".toList]])).length = 2 :=
  (claim_C4_amended (runLines (demoLines.take 1)) ['t']
    [[SqlField.bare ['1'], SqlField.quoted '\'' "Alice".toList],
     [SqlField.bare ['2'], SqlField.quoted '\'' "Bob".toList]]
    0 ⟨"t".toList, ["id".toList, "name".toList], [], true⟩
    (by decide) (by decide) (by decide) (by decide) (by decide) (by decide) (by decide)).1


end SqlToCsv
